import Mathlib

/-!
Verification development for the FunctionAnalyzer core of the repository
(file src/extractor.js, class FunctionAnalyzer). The JavaScript code is
shallowly embedded: its abstract syntax tree (the Babel/ESTree view of a
source file) is a pair of mutual inductive types, the single traversal of
analyzeFile is an enumerator producing the sequence of visitor events
(one per function-like node and one per call expression, in preorder),
and the mutable maps of the class (this.functions, this.functionCalls)
become an explicit state threaded through a fold over that event list.
JavaScript Map objects preserve insertion order and Map.set on an existing
key keeps its position, so they are modelled as association lists with
in-place update. The manual file-system walk (findJSFilesManually) and the
summary arithmetic (generateSummary) are embedded separately below.
-/

/-! ## String helpers

The JavaScript code uses String.prototype.startsWith / endsWith, regular
expressions anchored at the start or end, and identifier names. These
helpers work on the character list of a string so that everything is
computable and provable by kernel reduction.
-/

/-- charsStart p s is true when the character list p is an initial segment
of the character list s (the embedding of String.prototype.startsWith and
of a start-anchored regular expression literal). -/
def charsStart : List Char → List Char → Bool
  | [], _ => true
  | _ :: _, [] => false
  | p :: ps, c :: cs => p == c && charsStart ps cs

/-- strStarts s p is the embedding of s.startsWith(p). -/
def strStarts (s p : String) : Bool :=
  charsStart p.data s.data

/-- strEnds s p is the embedding of s.endsWith(p). -/
def strEnds (s p : String) : Bool :=
  charsStart p.data.reverse s.data.reverse

/-- isUpperAZ c is the character class of the regular expressions
in isBlacklistedFunction (the class from A to Z). -/
def isUpperAZ (c : Char) : Bool :=
  'A' ≤ c && c ≤ 'Z'

/-- startsUpperAfter p s embeds a regular expression that anchors at the
start, matches the literal characters of p and then one character A..Z
(the patterns for on, handle and underscore-on in isBlacklistedFunction). -/
def startsUpperAfter (p s : String) : Bool :=
  charsUpperAfter p.data s.data
where
  /-- charsUpperAfter walks the literal part and then demands one
  uppercase character. -/
  charsUpperAfter : List Char → List Char → Bool
    | [], c :: _ => isUpperAZ c
    | [], [] => false
    | p :: ps, c :: cs => p == c && charsUpperAfter ps cs
    | _ :: _, [] => false

/-! ## Abstract syntax

Node is the fragment of the Babel abstract syntax tree that the analyzer
inspects. Constructors carry exactly the fields the JavaScript reads: line
numbers (node.loc.start.line, always present on parsed nodes) only where
the analyzer records them, and child nodes in syntactic order. Method
definitions are modelled in the flat shape that the Babel parser really
produces when the estree plugin is not enabled (and analyzeFile enables
only jsx, typescript and proposal plugins): a classMethod or objMethod
node carries its key and its body directly and is itself a member of the
Function alias, so the Function visitor fires on the method node itself,
whose immediate parent is the ClassBody or the ObjectExpression. The
branches of getFunctionInfo that test t.isClassMethod(path.parent) and
t.isObjectMethod(path.parent) therefore fire only for a function sitting
in a computed method key, never for the method itself.
NodeList is a mutual list type so that all recursions are structural and
reduce inside the kernel. For a variable declarator the initializer is a
NodeList that is empty (no initializer) or a single node.
-/

/-- MKind is the kind field of a class or object method. -/
inductive MKind where
  | ctorK
  | methodK
  | getterK
  | setterK
deriving DecidableEq, Repr

mutual
/-- Node is the embedded abstract syntax tree. -/
inductive Node where
  | ident (name : String)
  | strLit (value : String)
  | awaitE (line : Nat) (arg : Node)
  | callE (line : Nat) (callee : Node) (args : NodeList)
  | memberE (obj : Node) (computed : Bool) (prop : Node)
  | funcDecl (id : Option String) (isAsync : Bool) (line : Nat) (body : NodeList)
  | funcExpr (id : Option String) (isAsync : Bool) (line : Nat) (body : NodeList)
  | arrowFn (isAsync : Bool) (line : Nat) (body : NodeList)
  | classDecl (id : Option String) (body : NodeList)
  | classMethod (kind : MKind) (key : Node) (computed : Bool)
      (isAsync : Bool) (line : Nat) (body : NodeList)
  | objectE (members : NodeList)
  | objProp (key : Node) (computed : Bool) (value : Node)
  | objMethod (kind : MKind) (key : Node) (computed : Bool)
      (isAsync : Bool) (line : Nat) (body : NodeList)
  | varDecl (decls : NodeList)
  | varDeclarator (id : Node) (init : NodeList)
  | assignE (left : Node) (right : Node)
  | exprStmt (e : Node)
  | blockStmt (body : NodeList)
  | otherN (children : NodeList)
deriving DecidableEq

/-- NodeList is a list of sibling nodes in syntactic order. -/
inductive NodeList where
  | nil
  | cons (hd : Node) (tl : NodeList)
deriving DecidableEq
end

/-- FnKind distinguishes the five node types of the Function alias that
the traversal visits; getFunctionInfo tests only
t.isArrowFunctionExpression and t.isFunctionExpression on the node, so
flat method nodes fail that test. -/
inductive FnKind where
  | funcDeclK
  | funcExprK
  | arrowK
  | classMethodK
  | objMethodK
deriving DecidableEq, Repr

/-- FnView is the part of a function-like node that getFunctionInfo and
analyzeFunction read directly: node.id, node.async, node.loc.start.line
and the node type. -/
structure FnView where
  kind : FnKind
  id : Option String
  isAsync : Bool
  line : Nat
deriving DecidableEq, Repr

/-- ParentCtx is the immediate syntactic parent of a visited node, holding
exactly the fields that getFunctionInfo and analyzeCall inspect through
path.parent. -/
inductive ParentCtx where
  | pClassMethod (kind : MKind) (key : Node) (computed : Bool)
  | pObjectMethod (kind : MKind) (key : Node) (computed : Bool)
  | pVarDeclarator (id : Node)
  | pProperty (key : Node) (computed : Bool)
  | pAssign (left : Node)
  | pAwait
  | pClassBody
  | pObjectExpr
  | pOther

/-! ## The Declaration Classifier (getFunctionInfo and helpers) -/

/-- NameTrack is the result record of getFunctionInfo. -/
structure NameTrack where
  name : String
  shouldTrack : Bool
deriving DecidableEq, Repr

/-- mkindPrefix embeds the accessor prefix chosen at lines 452-455 and
472-475 of src/extractor.js: get and set methods are prefixed to
disambiguate accessor pairs. -/
def mkindPrefix : MKind → String
  | .getterK => "get "
  | .setterK => "set "
  | _ => ""

/-- getComputedPropertyName embeds FunctionAnalyzer.getComputedPropertyName
(lines 523-528): a member expression with identifier object and identifier
property prints as object.property, anything else as the word computed. -/
def getComputedPropertyName (m : Node) : String :=
  match m with
  | .memberE (.ident o) _ (.ident p) => o ++ "." ++ p
  | _ => "computed"

/-- getFunctionInfo embeds FunctionAnalyzer.getFunctionInfo
(lines 435-521), branch for branch and in source order: a node carrying
its own id wins; then class methods (constructor, identifier keys with
accessor prefixes, computed member keys, otherwise an untracked anonymous
method); then object methods; then function expressions and arrow
functions named through a variable declarator, a property key, or the
member target of an assignment; everything else is an untracked callback
or anonymous function. -/
def getFunctionInfo (node : FnView) (parent : ParentCtx) : NameTrack :=
  match node.id with
  | some n => ⟨n, true⟩
  | none =>
    match parent with
    | .pClassMethod kind key computed =>
      match kind with
      | .ctorK => ⟨"constructor", true⟩
      | _ =>
        match key with
        | .ident n => ⟨mkindPrefix kind ++ n, true⟩
        | .memberE o c p =>
          if computed then ⟨"[" ++ getComputedPropertyName (.memberE o c p) ++ "]", true⟩
          else ⟨"anonymous method", false⟩
        | _ => ⟨"anonymous method", false⟩
    | .pObjectMethod kind key computed =>
      match key with
      | .ident n => ⟨mkindPrefix kind ++ n, true⟩
      | .memberE o c p =>
        if computed then ⟨"[" ++ getComputedPropertyName (.memberE o c p) ++ "]", true⟩
        else ⟨"anonymous method", false⟩
      | _ => ⟨"anonymous method", false⟩
    | _ =>
      if node.kind = FnKind.arrowK ∨ node.kind = FnKind.funcExprK then
        match parent with
        | .pVarDeclarator (.ident n) => ⟨n, true⟩
        | .pProperty key computed =>
          match key with
          | .ident n => ⟨n, true⟩
          | .strLit v => ⟨v, true⟩
          | .memberE o c p =>
            if computed then ⟨"[" ++ getComputedPropertyName (.memberE o c p) ++ "]", true⟩
            else ⟨"callback/inline function", false⟩
          | _ => ⟨"callback/inline function", false⟩
        | .pAssign (.memberE _ _ (.ident pn)) => ⟨pn, true⟩
        | _ => ⟨"callback/inline function", false⟩
      else ⟨"anonymous", false⟩

/-- functionBlacklist embeds the set built in the constructor
(lines 167-207): names never tracked for usage because a framework calls
them. -/
def functionBlacklist : List String :=
  ["render", "preloadTemplates", "constructor",
   "onChange", "onClick", "onSubmit", "onLoad", "onReady", "onFocus",
   "onBlur", "onMouseDown", "onMouseUp", "onMouseOver", "onMouseOut",
   "onKeyDown", "onKeyUp", "onInput", "onScroll", "onResize", "onError",
   "onSuccess", "onComplete",
   "componentDidMount", "componentWillUnmount", "componentDidUpdate",
   "beforeMount", "mounted", "beforeUpdate", "updated", "beforeDestroy",
   "destroyed",
   "useEffect", "useState", "useCallback", "useMemo", "useRef"]

/-- isBlacklistedFunction embeds FunctionAnalyzer.isBlacklistedFunction
(lines 398-415): a direct hit in the blacklist, or one of the six handler
naming patterns. -/
def isBlacklistedFunction (functionName : String) : Bool :=
  functionBlacklist.contains functionName
  || startsUpperAfter "on" functionName
  || startsUpperAfter "handle" functionName
  || strEnds functionName "Handler"
  || strEnds functionName "Listener"
  || strEnds functionName "Callback"
  || startsUpperAfter "_on" functionName

/-- getCallName embeds FunctionAnalyzer.getCallName (lines 530-542): a
bare identifier callee gives its name, a member expression callee with an
identifier property gives the property name (the computed flag is not
consulted by the source), anything else gives no name and the call is
ignored. -/
def getCallName (callee : Node) : Option String :=
  match callee with
  | .ident n => some n
  | .memberE _ _ (.ident p) => some p
  | _ => none

/-- isPromiseOperation embeds FunctionAnalyzer.isPromiseOperation
(lines 544-557) including its early return: when the callee is a member
expression with an identifier property the function returns then/catch/
finally membership immediately, so the Promise-object test is reached only
for member expressions whose property is not a plain identifier. -/
def isPromiseOperation (callee : Node) : Bool :=
  match callee with
  | .memberE obj _ prop =>
    match prop with
    | .ident p => p == "then" || p == "catch" || p == "finally"
    | _ =>
      match obj with
      | .ident o => o == "Promise"
      | _ => false
  | _ => false

/-! ## Suspension-point collection (the nested traversal of analyzeFunction)

analyzeFunction (lines 360-379) runs path.traverse on the function node,
whose visitors fire on every descendant of the node, with no stop at
nested function boundaries. collectPts walks the whole subtree in
preorder, taking the per-node contribution as a parameter so that the one
definition serves both the AwaitExpression visitor and the CallExpression
visitor. getCodeSnippet (lines 559-565) returns the node type string, so
a suspension point records the line and that type name.
-/

/-- SuspPt is one entry of awaitedOperations or promiseOperations: the
line of the node and the string produced by getCodeSnippet. -/
structure SuspPt where
  line : Nat
  code : String
deriving DecidableEq, Repr

/-- selfAwait is the contribution of one node to the AwaitExpression
visitor of the nested traversal. -/
def selfAwait : Node → List SuspPt
  | .awaitE l _ => [⟨l, "AwaitExpression"⟩]
  | _ => []

/-- selfPromise is the contribution of one node to the CallExpression
visitor of the nested traversal, which records the call when
isPromiseOperation accepts its callee. -/
def selfPromise : Node → List SuspPt
  | .callE l c _ => if isPromiseOperation c then [⟨l, "CallExpression"⟩] else []
  | _ => []

mutual
/-- collectPts sf n lists the contributions of every node of the subtree
rooted at n, in preorder, n itself included. -/
def collectPts (sf : Node → List SuspPt) : Node → List SuspPt
  | .ident s => sf (.ident s)
  | .strLit s => sf (.strLit s)
  | .awaitE l a => sf (.awaitE l a) ++ collectPts sf a
  | .callE l c args => sf (.callE l c args) ++ (collectPts sf c ++ collectPtsL sf args)
  | .memberE o cp p => sf (.memberE o cp p) ++ (collectPts sf o ++ collectPts sf p)
  | .funcDecl i a l b => sf (.funcDecl i a l b) ++ collectPtsL sf b
  | .funcExpr i a l b => sf (.funcExpr i a l b) ++ collectPtsL sf b
  | .arrowFn a l b => sf (.arrowFn a l b) ++ collectPtsL sf b
  | .classDecl i b => sf (.classDecl i b) ++ collectPtsL sf b
  | .classMethod k key cp a l b =>
    sf (.classMethod k key cp a l b) ++ (collectPts sf key ++ collectPtsL sf b)
  | .objectE ms => sf (.objectE ms) ++ collectPtsL sf ms
  | .objProp key cp v => sf (.objProp key cp v) ++ (collectPts sf key ++ collectPts sf v)
  | .objMethod k key cp a l b =>
    sf (.objMethod k key cp a l b) ++ (collectPts sf key ++ collectPtsL sf b)
  | .varDecl ds => sf (.varDecl ds) ++ collectPtsL sf ds
  | .varDeclarator i init => sf (.varDeclarator i init) ++ (collectPts sf i ++ collectPtsL sf init)
  | .assignE l r => sf (.assignE l r) ++ (collectPts sf l ++ collectPts sf r)
  | .exprStmt e => sf (.exprStmt e) ++ collectPts sf e
  | .blockStmt b => sf (.blockStmt b) ++ collectPtsL sf b
  | .otherN cs => sf (.otherN cs) ++ collectPtsL sf cs

/-- collectPtsL applies collectPts to each node of a sibling list. -/
def collectPtsL (sf : Node → List SuspPt) : NodeList → List SuspPt
  | .nil => []
  | .cons n ns => collectPts sf n ++ collectPtsL sf ns
end

/-- awaitsIn collects the awaited operations of a subtree, as the
AwaitExpression visitor of analyzeFunction does. -/
def awaitsIn (n : Node) : List SuspPt := collectPts selfAwait n

/-- awaitsInL collects the awaited operations of a list of body nodes. -/
def awaitsInL (ns : NodeList) : List SuspPt := collectPtsL selfAwait ns

/-- promiseOpsIn collects the promise-combinator calls of a subtree, as
the CallExpression visitor of analyzeFunction does. -/
def promiseOpsIn (n : Node) : List SuspPt := collectPts selfPromise n

/-- promiseOpsInL collects the promise-combinator calls of a list of body
nodes. -/
def promiseOpsInL (ns : NodeList) : List SuspPt := collectPtsL selfPromise ns

mutual
/-- subnodes n lists every node of the subtree rooted at n, n included,
in the same preorder that path.traverse uses. -/
def subnodes : Node → List Node
  | .ident s => [.ident s]
  | .strLit s => [.strLit s]
  | .awaitE l a => .awaitE l a :: subnodes a
  | .callE l c args => .callE l c args :: (subnodes c ++ subnodesL args)
  | .memberE o cp p => .memberE o cp p :: (subnodes o ++ subnodes p)
  | .funcDecl i a l b => .funcDecl i a l b :: subnodesL b
  | .funcExpr i a l b => .funcExpr i a l b :: subnodesL b
  | .arrowFn a l b => .arrowFn a l b :: subnodesL b
  | .classDecl i b => .classDecl i b :: subnodesL b
  | .classMethod k key cp a l b =>
    .classMethod k key cp a l b :: (subnodes key ++ subnodesL b)
  | .objectE ms => .objectE ms :: subnodesL ms
  | .objProp key cp v => .objProp key cp v :: (subnodes key ++ subnodes v)
  | .objMethod k key cp a l b =>
    .objMethod k key cp a l b :: (subnodes key ++ subnodesL b)
  | .varDecl ds => .varDecl ds :: subnodesL ds
  | .varDeclarator i init => .varDeclarator i init :: (subnodes i ++ subnodesL init)
  | .assignE l r => .assignE l r :: (subnodes l ++ subnodes r)
  | .exprStmt e => .exprStmt e :: subnodes e
  | .blockStmt b => .blockStmt b :: subnodesL b
  | .otherN cs => .otherN cs :: subnodesL cs

/-- subnodesL lists every node of the subtrees of a sibling list. -/
def subnodesL : NodeList → List Node
  | .nil => []
  | .cons n ns => subnodes n ++ subnodesL ns
end

/-! ## The single file traversal (analyzeFile, lines 320-337)

The traverse call registers three visitors: ClassDeclaration enter/exit
maintaining currentClass, Function firing analyzeFunction, and
CallExpression firing analyzeCall. The enumerator below walks the tree in
the same preorder and produces the sequence of visitor events, threading
currentClass through: the ClassDeclaration exit visitor sets it to null
(not to the previous value), which the threading reproduces exactly.
-/

/-- Ev is one visitor event of the traversal: a function-like node (with
its body, its immediate parent and the currentClass at that moment) or a
call expression (with its line, callee, and whether its direct parent is
an await expression). -/
inductive Ev where
  | fnEv (fn : FnView) (body : NodeList) (parent : ParentCtx) (cls : Option String)
  | callEv (line : Nat) (callee : Node) (awaited : Bool)

/-- isAwaitCtx tests whether the parent context is an await expression,
embedding t.isAwaitExpression(path.parent) at line 423. -/
def isAwaitCtx : ParentCtx → Bool
  | .pAwait => true
  | _ => false

mutual
/-- enumNode produces the visitor events of the subtree rooted at one
node, given the parent context of that node and the current class, and
returns the events together with the value of currentClass after the
subtree has been left. -/
def enumNode (p : ParentCtx) (cc : Option String) : Node → List Ev × Option String
  | .ident _ => ([], cc)
  | .strLit _ => ([], cc)
  | .awaitE _ a => enumNode .pAwait cc a
  | .callE l c args =>
    let r1 := enumNode .pOther cc c
    let r2 := enumNodes .pOther r1.2 args
    (.callEv l c (isAwaitCtx p) :: (r1.1 ++ r2.1), r2.2)
  | .memberE o _ pr =>
    let r1 := enumNode .pOther cc o
    let r2 := enumNode .pOther r1.2 pr
    (r1.1 ++ r2.1, r2.2)
  | .funcDecl i a l b =>
    let r := enumNodes .pOther cc b
    (.fnEv ⟨.funcDeclK, i, a, l⟩ b p cc :: r.1, r.2)
  | .funcExpr i a l b =>
    let r := enumNodes .pOther cc b
    (.fnEv ⟨.funcExprK, i, a, l⟩ b p cc :: r.1, r.2)
  | .arrowFn a l b =>
    let r := enumNodes .pOther cc b
    (.fnEv ⟨.arrowK, none, a, l⟩ b p cc :: r.1, r.2)
  | .classDecl i b =>
    let r := enumNodes .pClassBody (some (i.getD "AnonymousClass")) b
    (r.1, none)
  | .classMethod k key cp a l b =>
    let r1 := enumNode (.pClassMethod k key cp) cc key
    let r2 := enumNodes .pOther r1.2 b
    (.fnEv ⟨.classMethodK, none, a, l⟩ (.cons key b) p cc :: (r1.1 ++ r2.1), r2.2)
  | .objectE ms => enumNodes .pObjectExpr cc ms
  | .objProp key cp v =>
    let r1 := enumNode .pOther cc key
    let r2 := enumNode (.pProperty key cp) r1.2 v
    (r1.1 ++ r2.1, r2.2)
  | .objMethod k key cp a l b =>
    let r1 := enumNode (.pObjectMethod k key cp) cc key
    let r2 := enumNodes .pOther r1.2 b
    (.fnEv ⟨.objMethodK, none, a, l⟩ (.cons key b) p cc :: (r1.1 ++ r2.1), r2.2)
  | .varDecl ds => enumNodes .pOther cc ds
  | .varDeclarator i init =>
    let r1 := enumNode .pOther cc i
    let r2 := enumNodes (.pVarDeclarator i) r1.2 init
    (r1.1 ++ r2.1, r2.2)
  | .assignE l r =>
    let r1 := enumNode .pOther cc l
    let r2 := enumNode (.pAssign l) r1.2 r
    (r1.1 ++ r2.1, r2.2)
  | .exprStmt e => enumNode .pOther cc e
  | .blockStmt b => enumNodes .pOther cc b
  | .otherN cs => enumNodes .pOther cc cs

/-- enumNodes chains enumNode over a sibling list, threading the current
class left to right as the traversal does. -/
def enumNodes (p : ParentCtx) (cc : Option String) : NodeList → List Ev × Option String
  | .nil => ([], cc)
  | .cons n ns =>
    let r1 := enumNode p cc n
    let r2 := enumNodes p r1.2 ns
    (r1.1 ++ r2.1, r2.2)
end

/-- eventsOfProgram lists the visitor events of one parsed file: the
top-level nodes have the Program node as parent and no current class. -/
def eventsOfProgram (prog : NodeList) : List Ev :=
  (enumNodes .pOther none prog).1

/-! ## Analyzer state (the mutable fields of FunctionAnalyzer) -/

/-- CallRec is one Call Record pushed by analyzeCall (line 431). -/
structure CallRec where
  file : String
  line : Nat
  awaited : Bool
deriving DecidableEq, Repr

/-- CallAgg is one Call Aggregate of this.functionCalls: the ordered
callers and the running totalCalls counter. -/
structure CallAgg where
  callers : List CallRec
  totalCalls : Nat
deriving DecidableEq, Repr

/-- FuncRec is one Declaration stored in this.functions (lines 381-391).
The calls and awaitedCalls fields are initialized to empty arrays by the
source and never written again; they are kept for fidelity. -/
structure FuncRec where
  name : String
  isAsync : Bool
  file : String
  cls : Option String
  line : Nat
  awaitedOperations : List SuspPt
  promiseOperations : List SuspPt
  calls : List CallRec
  awaitedCalls : List CallRec
deriving DecidableEq, Repr

/-- JMap is an insertion-ordered association list, the model of a
JavaScript Map: set on a fresh key appends, set on an existing key updates
in place. -/
abbrev JMap (β : Type) := List (String × β)

/-- lookupA embeds Map.prototype.get. -/
def lookupA {β : Type} (m : JMap β) (k : String) : Option β :=
  (m.find? (fun p => p.1 == k)).map (·.2)

/-- containsA embeds Map.prototype.has. -/
def containsA {β : Type} (m : JMap β) (k : String) : Bool :=
  (lookupA m k).isSome

/-- setA embeds Map.prototype.set: an existing key keeps its position, a
fresh key goes to the end. -/
def setA {β : Type} (m : JMap β) (k : String) (v : β) : JMap β :=
  if containsA m k then m.map (fun p => if p.1 == k then (k, v) else p)
  else m ++ [(k, v)]

/-- updateA applies a function to the value stored at a key, the model of
mutating the object returned by Map.prototype.get in place. -/
def updateA {β : Type} (m : JMap β) (k : String) (f : β → β) : JMap β :=
  m.map (fun p => if p.1 == k then (k, f p.2) else p)

/-- AnalyzerState is the mutable state of one FunctionAnalyzer instance
that the traversal writes: the declarations map, the call aggregates map,
the warnings list and the skipped-function counter. -/
structure AnalyzerState where
  functions : JMap FuncRec
  functionCalls : JMap CallAgg
  errors : List String
  skippedFunctionCount : Nat
deriving DecidableEq, Repr

/-- initSt is the state built by the constructor. -/
def initSt : AnalyzerState := ⟨[], [], [], 0⟩

/-- functionId builds the composite identity of a declaration
(line 358). -/
def functionId (file name : String) (line : Nat) : String :=
  file ++ ":" ++ name ++ ":" ++ toString line

/-- ensureAgg embeds the lazy creation of a Call Aggregate
(lines 393-395 and 426-428): if the name has no entry yet, append one
with no callers and zero totalCalls. -/
def ensureAgg (m : JMap CallAgg) (name : String) : JMap CallAgg :=
  if containsA m name then m else m ++ [(name, ⟨[], 0⟩)]

/-- analyzeFunction embeds FunctionAnalyzer.analyzeFunction
(lines 340-396): untracked and blacklisted functions only bump the
skipped counter; a tracked function stores its Declaration under its
composite id, with the suspension points collected by the nested
traversal of its whole body subtree, and makes sure its name has a Call
Aggregate. -/
def analyzeFunction (file : String) (cls : Option String) (fn : FnView)
    (body : NodeList) (parent : ParentCtx) (s : AnalyzerState) : AnalyzerState :=
  let info := getFunctionInfo fn parent
  if !info.shouldTrack then
    { s with skippedFunctionCount := s.skippedFunctionCount + 1 }
  else if isBlacklistedFunction info.name then
    { s with skippedFunctionCount := s.skippedFunctionCount + 1 }
  else
    let fr : FuncRec :=
      ⟨info.name, fn.isAsync, file, cls, fn.line, awaitsInL body, promiseOpsInL body, [], []⟩
    { s with
      functions := setA s.functions (functionId file info.name fn.line) fr,
      functionCalls := ensureAgg s.functionCalls info.name }

/-- analyzeCall embeds FunctionAnalyzer.analyzeCall (lines 417-433): a
call whose callee yields no name is ignored; otherwise the aggregate for
the name is created if needed, the Call Record appended and totalCalls
incremented. -/
def analyzeCall (file : String) (awaited : Bool) (line : Nat) (callee : Node)
    (s : AnalyzerState) : AnalyzerState :=
  match getCallName callee with
  | none => s
  | some name =>
    { s with
      functionCalls :=
        updateA (ensureAgg s.functionCalls name) name
          (fun a => ⟨a.callers ++ [⟨file, line, awaited⟩], a.totalCalls + 1⟩) }

/-- stepEv dispatches one visitor event to analyzeFunction or
analyzeCall. -/
def stepEv (file : String) (s : AnalyzerState) : Ev → AnalyzerState
  | .fnEv fn body parent cls => analyzeFunction file cls fn body parent s
  | .callEv line callee awaited => analyzeCall file awaited line callee s

/-- runEvents folds the visitor events of one file over the state. -/
def runEvents (file : String) (evs : List Ev) (s : AnalyzerState) : AnalyzerState :=
  evs.foldl (stepEv file) s

/-! ## Per-file driver and error isolation (analyzeFile / analyzeFolder) -/

/-- SourceFile is one discovered file as the analyzer sees it: its
relative path and the outcome of parsing its text. The parser
(an external library) either produces the syntax tree or raises a parse
error whose message analyzeFile rethrows with the Parse error prefix
(lines 291-316); the analyzer never looks at file text except through
this outcome. -/
structure SourceFile where
  rel : String
  parsed : Except String NodeList

/-- analyzeFileSt embeds one iteration of the file loop of analyzeFolder
(lines 252-261): a parse failure is caught, formatted and appended to the
errors list, and the state is otherwise untouched; a parsed file runs the
traversal. -/
def analyzeFileSt (s : AnalyzerState) (f : SourceFile) : AnalyzerState :=
  match f.parsed with
  | .error m =>
    { s with errors := s.errors ++ ["Error analyzing " ++ f.rel ++ ": Parse error: " ++ m] }
  | .ok prog => runEvents f.rel (eventsOfProgram prog) s

/-- runFiles folds the per-file analysis over a list of files. -/
def runFiles (s : AnalyzerState) (files : List SourceFile) : AnalyzerState :=
  files.foldl analyzeFileSt s

/-- runAnalyzer is a whole run of analyzeFolder over an already
discovered file list, starting from the constructor state. -/
def runAnalyzer (files : List SourceFile) : AnalyzerState :=
  runFiles initSt files

/-! ## Report-side definitions (generateUsageReport, generateSummary,
generateFunctionList, generateAsyncValidationReport) -/

/-- callCountOf embeds the pattern callInfo ? callInfo.totalCalls : 0
used at lines 631 and 718-720. -/
def callCountOf (s : AnalyzerState) (name : String) : Nat :=
  match lookupA s.functionCalls name with
  | some a => a.totalCalls
  | none => 0

/-- trackableOf is this.functions.size (line 776). -/
def trackableOf (s : AnalyzerState) : Nat := s.functions.length

/-- totalFunctionsOf is trackable plus skipped (line 777). -/
def totalFunctionsOf (s : AnalyzerState) : Nat :=
  trackableOf s + s.skippedFunctionCount

/-- asyncCountOf counts the trackable declarations marked async
(line 778). -/
def asyncCountOf (s : AnalyzerState) : Nat :=
  (s.functions.filter (fun p => p.2.isAsync)).length

/-- syncCountOf is trackable minus async (line 779). -/
def syncCountOf (s : AnalyzerState) : Nat :=
  trackableOf s - asyncCountOf s

/-- unusedCountOf counts declarations with no aggregate or zero
totalCalls (lines 781-784). -/
def unusedCountOf (s : AnalyzerState) : Nat :=
  (s.functions.filter (fun p => callCountOf s p.2.name == 0)).length

/-- singleUseCountOf counts declarations whose aggregate exists with
totalCalls exactly one (lines 786-789). -/
def singleUseCountOf (s : AnalyzerState) : Nat :=
  (s.functions.filter (fun p => (lookupA s.functionCalls p.2.name).isSome
      && callCountOf s p.2.name == 1)).length

/-- wellUsedCountOf is trackable minus unused minus single use
(line 791). -/
def wellUsedCountOf (s : AnalyzerState) : Nat :=
  trackableOf s - unusedCountOf s - singleUseCountOf s

/-- JsNum is the value space of the percentage figures the summary
prints: a plain number, NaN (from 0/0) or Infinity (from a positive
numerator over zero). -/
inductive JsNum where
  | nan
  | posInf
  | num (n : Nat)
deriving DecidableEq, Repr

/-- roundHalfUp100 a b is the rounding of 100*a/b to the nearest integer
with halves rounded up, which is what Math.round does for the nonnegative
values that arise here. The source computes in binary floating point; for
the small integer counts involved the rational value is the one the claim
is about, and the claim at issue (C2) concerns only the zero-denominator
case, where no rounding happens at all. -/
def roundHalfUp100 (a b : Nat) : Nat := (200 * a + b) / (2 * b)

/-- jsPctRound a b embeds Math.round((a / b) * 100) on JavaScript
numbers: division of zero by zero gives NaN, of a positive number by zero
gives Infinity, and Math.round passes both through unchanged. -/
def jsPctRound (a b : Nat) : JsNum :=
  if b = 0 then (if a = 0 then .nan else .posInf) else .num (roundHalfUp100 a b)

/-- usageEfficiencyOf embeds line 792, the one percentage computation that
guards the zero-trackable case with a ternary. -/
def usageEfficiencyOf (s : AnalyzerState) : JsNum :=
  if 0 < trackableOf s then .num (roundHalfUp100 (wellUsedCountOf s) (trackableOf s))
  else .num 0

/-- asyncShareOf embeds the async percentage printed at line 796, which
has no zero guard. -/
def asyncShareOf (s : AnalyzerState) : JsNum :=
  jsPctRound (asyncCountOf s) (trackableOf s)

/-- syncShareOf embeds the sync percentage printed at line 797, which has
no zero guard. -/
def syncShareOf (s : AnalyzerState) : JsNum :=
  jsPctRound (syncCountOf s) (trackableOf s)

/-- singleUseShareOf embeds the single-use percentage printed at line
801, which has no zero guard. -/
def singleUseShareOf (s : AnalyzerState) : JsNum :=
  jsPctRound (singleUseCountOf s) (trackableOf s)

/-- unusedShareOf embeds the unused percentage printed at line 802, which
has no zero guard. -/
def unusedShareOf (s : AnalyzerState) : JsNum :=
  jsPctRound (unusedCountOf s) (trackableOf s)

/-- TierAcc is the triple of buckets the usage loop fills: unused,
single use, multi use. -/
abbrev TierAcc := List FuncRec × List (FuncRec × CallAgg) × List (FuncRec × CallAgg)

/-- tierStep embeds one iteration of the classification loop of
generateUsageReport (lines 718-729): a declaration goes to the unused,
single-use or multi-use bucket by its call count. -/
def tierStep (s : AnalyzerState) (acc : TierAcc) (p : String × FuncRec) : TierAcc :=
  match lookupA s.functionCalls p.2.name with
  | none => (acc.1 ++ [p.2], acc.2.1, acc.2.2)
  | some ci =>
    if ci.totalCalls = 0 then (acc.1 ++ [p.2], acc.2.1, acc.2.2)
    else if ci.totalCalls = 1 then (acc.1, acc.2.1 ++ [(p.2, ci)], acc.2.2)
    else (acc.1, acc.2.1, acc.2.2 ++ [(p.2, ci)])

/-- usageTiersOf embeds the classification loop of generateUsageReport
(lines 714-729) over every declaration in discovery order. -/
def usageTiersOf (s : AnalyzerState) : TierAcc :=
  s.functions.foldl (tierStep s) ([], [], [])

/-- insertByCalls places an element into an already sorted list,
descending by totalCalls, passing only strictly greater keys so that the
element lands before every element of equal key inserted earlier, which
is the stability discipline of Array.prototype.sort. -/
def insertByCalls (x : FuncRec × CallAgg) :
    List (FuncRec × CallAgg) → List (FuncRec × CallAgg)
  | [] => [x]
  | y :: ys => if x.2.totalCalls < y.2.totalCalls then y :: insertByCalls x ys
               else x :: y :: ys

/-- sortByCallsDesc embeds multiUse.sort((a, b) => b.callInfo.totalCalls -
a.callInfo.totalCalls) at line 765. Array.prototype.sort is required by
the language standard to be stable, and a stable sort consistent with a
comparator is unique, so the insertion sort below computes exactly the
list the source produces. -/
def sortByCallsDesc : List (FuncRec × CallAgg) → List (FuncRec × CallAgg)
  | [] => []
  | x :: xs => insertByCalls x (sortByCallsDesc xs)

/-- AsyncFlag is one finding of the async validation section
(lines 639-704). The two call-site flags carry the sites they cite. -/
inductive AsyncFlag where
  | unnecessaryAsync
  | missingAwait (sites : List (String × Nat))
  | missingAsync
  | unnecessaryAwait (sites : List (String × Nat))
deriving DecidableEq, Repr

/-- flagsOf embeds the per-declaration checks of
generateAsyncValidationReport (lines 649-685): an async declaration with
no suspension points is unnecessary-async, an async declaration with
non-awaited callers is missing-await for those sites, and symmetrically
for non-async declarations. -/
def flagsOf (s : AnalyzerState) (f : FuncRec) : List AsyncFlag :=
  let callInfo := lookupA s.functionCalls f.name
  if f.isAsync then
    (if f.awaitedOperations = [] ∧ f.promiseOperations = [] then
       [AsyncFlag.unnecessaryAsync] else [])
    ++ (match callInfo with
        | some ci =>
          let na := ci.callers.filter (fun c => !c.awaited)
          if na.isEmpty then [] else [AsyncFlag.missingAwait (na.map (fun c => (c.file, c.line)))]
        | none => [])
  else
    (if f.awaitedOperations ≠ [] ∨ f.promiseOperations ≠ [] then
       [AsyncFlag.missingAsync] else [])
    ++ (match callInfo with
        | some ci =>
          let aw := ci.callers.filter (fun c => c.awaited)
          if aw.isEmpty then [] else [AsyncFlag.unnecessaryAwait (aw.map (fun c => (c.file, c.line)))]
        | none => [])

/-- flagSetOf is the async validation section as a whole: the flags of
every declaration in discovery order, keeping only flagged declarations as
the report does. -/
def flagSetOf (s : AnalyzerState) : List (String × List AsyncFlag) :=
  (s.functions.map (fun p => (p.1, flagsOf s p.2))).filter (fun q => !q.2.isEmpty)

/-- groupAppend appends a declaration to the bucket of its file, creating
the bucket at the end on first sight, as the byFile map of
generateFunctionList does (lines 598-605). -/
def groupAppend (m : JMap (List FuncRec)) (k : String) (v : FuncRec) :
    JMap (List FuncRec) :=
  if containsA m k then updateA m k (fun l => l ++ [v]) else m ++ [(k, [v])]

/-- inventoryOf is the function inventory grouped by file in first-seen
order, the content of the FUNCTION INVENTORY section. -/
def inventoryOf (s : AnalyzerState) : JMap (List FuncRec) :=
  s.functions.foldl (fun m p => groupAppend m p.2.file p.2) []

/-- jsIsoSanitize embeds timestamp.replace with the colon-or-dot class
and a dash replacement (line 871). -/
def jsIsoSanitize (t : String) : String :=
  String.mk (t.data.map (fun c => if c = ':' ∨ c = '.' then '-' else c))

/-- reportFileName embeds the artifact name built at line 872 from the
sanitized timestamp cut to nineteen characters. -/
def reportFileName (timestamp : String) : String :=
  "function-analysis-report-" ++ (jsIsoSanitize timestamp).take 19 ++ ".txt"

/-- RunOutput packages what a full run of analyzeFolder produces: the
final state, the three report classifications derived from it, and the
name of the persisted artifact, which is the only part of the output that
depends on the wall clock. -/
structure RunOutput where
  state : AnalyzerState
  inventory : JMap (List FuncRec)
  flagSet : List (String × List AsyncFlag)
  unusedTier : List FuncRec
  singleUseTier : List (FuncRec × CallAgg)
  wellUsedTier : List (FuncRec × CallAgg)
  artifactName : String

/-- fullRun is a whole analyzeFolder run over a discovered file list at a
given clock reading (the ISO timestamp string taken in
writeReportToFile). -/
def fullRun (files : List SourceFile) (timestamp : String) : RunOutput :=
  let s := runAnalyzer files
  let tiers := usageTiersOf s
  ⟨s, inventoryOf s, flagSetOf s, tiers.1, tiers.2.1,
   sortByCallsDesc tiers.2.2, reportFileName timestamp⟩

/-! ## The manual file-system walk (findJSFilesManually, lines 267-289)

The file system is a tree of entries; a directory either yields its
entries to fs.readdirSync or makes that call throw (EACCES on an
unreadable directory). The source wraps no try/catch around readdirSync
or the recursive call, so a thrown error propagates out of the whole
walk; Except.error models the exception in flight.
-/

mutual
/-- FSEntry is one directory entry with the data stat and readdir
expose. -/
inductive FSEntry where
  | file (name : String)
  | dir (name : String) (contents : FSDir)

/-- FSDir is what fs.readdirSync does on a directory: deliver the entry
list or throw. -/
inductive FSDir where
  | unreadable
  | readable (entries : FSList)

/-- FSList is a list of sibling directory entries in readdir order. -/
inductive FSList where
  | nil
  | cons (hd : FSEntry) (tl : FSList)
end

/-- excludedDirs is the directory exclusion list at line 276. -/
def excludedDirs : List String := ["node_modules", "dist", "build", ".git"]

/-- jsExtensions is the recognized extension list at line 282. -/
def jsExtensions : List String := [".js", ".jsx", ".mjs", ".ts", ".tsx"]

/-- strToLower embeds String.prototype.toLowerCase character by
character. -/
def strToLower (s : String) : String :=
  String.mk (s.data.map Char.toLower)

/-- extnameAux finds the suffix starting at the last dot of a character
list. -/
def extnameAux : List Char → Option (List Char)
  | [] => none
  | c :: cs =>
    match extnameAux cs with
    | some e => some e
    | none => if c = '.' then some (c :: cs) else none

/-- extname embeds path.extname on a base name: the suffix from the last
dot, empty when there is no dot or when the only dot starts the name. -/
def extname (s : String) : String :=
  match s.data with
  | [] => ""
  | _ :: rest =>
    match extnameAux rest with
    | some e => String.mk e
    | none => ""

/-- joinPath embeds path.join of a relative base and one component. -/
def joinPath (basePath name : String) : String :=
  if basePath = "" then name else basePath ++ "/" ++ name

/-- eaccesMsg is the error fs.readdirSync raises on an unreadable
directory. -/
def eaccesMsg : String := "EACCES: permission denied"

mutual
/-- walkEntry embeds one iteration of the entry loop of
findJSFilesManually: excluded directory names are skipped, other
directories are read and recursed into with no error handling, and files
with a recognized extension are appended to the accumulated list. -/
def walkEntry (basePath : String) (acc : List String) :
    FSEntry → Except String (List String)
  | .dir name contents =>
    if excludedDirs.contains name then .ok acc
    else
      match contents with
      | .unreadable => .error eaccesMsg
      | .readable es => walkFS (joinPath basePath name) acc es
  | .file name =>
    if jsExtensions.contains (strToLower (extname name)) then
      .ok (acc ++ [joinPath basePath name])
    else .ok acc

/-- walkFS chains walkEntry over the entries of one directory; an error
thrown by any entry aborts the remaining iterations, as an uncaught
exception leaves the for loop. -/
def walkFS (basePath : String) (acc : List String) :
    FSList → Except String (List String)
  | .nil => .ok acc
  | .cons e es =>
    match walkEntry basePath acc e with
    | .error m => .error m
    | .ok acc1 => walkFS basePath acc1 es
end

/-- findJSFilesManually embeds the top-level call on the root directory:
the root is read (throwing if unreadable) and its entries walked with an
empty base path and an empty accumulated list. -/
def findJSFilesManually : FSEntry → Except String (List String)
  | .dir _ (.readable es) => walkFS "" [] es
  | .dir _ .unreadable => .error eaccesMsg
  | .file _ => .error "ENOTDIR: not a directory"

/-- nl converts a plain list of nodes into a NodeList, a convenience for
writing concrete programs. -/
def nl : List Node → NodeList
  | [] => .nil
  | x :: xs => .cons x (nl xs)

/-- fsl converts a plain list of entries into an FSList, a convenience
for writing concrete directory trees. -/
def fsl : List FSEntry → FSList
  | [] => .nil
  | x :: xs => .cons x (fsl xs)

/-! ## Predicates and concrete inputs used by the claims -/

/-- callsInvariant states the aggregate invariant of claim C4: every Call
Aggregate in the state has totalCalls equal to the length of its callers
sequence. -/
def callsInvariant (s : AnalyzerState) : Prop :=
  ∀ p ∈ s.functionCalls, p.2.totalCalls = p.2.callers.length

/-- aggInv is the same invariant on a bare aggregate map. -/
def aggInv (m : JMap CallAgg) : Prop :=
  ∀ p ∈ m, p.2.totalCalls = p.2.callers.length

/-- evInfo exposes the Declaration Classifier result of one function
visit event: the name and track decision that getFunctionInfo returns for
the visited node and its real traversal parent. -/
def evInfo : Ev → Option NameTrack
  | .fnEv fn _ parent _ => some (getFunctionInfo fn parent)
  | .callEv _ _ _ => none

/-- fslAppend concatenates two sibling lists of directory entries. -/
def fslAppend : FSList → FSList → FSList
  | .nil, ys => ys
  | .cons x xs, ys => .cons x (fslAppend xs ys)

/-- innerArrowFn is the nested arrow function of the program

  const outer = async () => \x7b
    const inner = async () => \x7b
      await g();
    \x7d;
  \x7d;

with the await expression on line 3, lexically inside the body of inner
and not in the immediate body of outer. -/
def innerArrowFn : Node :=
  .arrowFn true 2 (nl [.exprStmt (.awaitE 3 (.callE 3 (.ident "g") (nl [])))])

/-- outerArrowBody is the body of the outer arrow function of
nestedAwaitProgram: the declaration of inner, whose initializer is
innerArrowFn. The await at line 3 lies inside innerArrowFn, not directly
in this body. -/
def outerArrowBody : NodeList :=
  nl [.varDecl (nl [.varDeclarator (.ident "inner") (nl [innerArrowFn])])]

/-- nestedAwaitProgram is the whole two-arrow program described above. -/
def nestedAwaitProgram : NodeList :=
  nl [.varDecl (nl [.varDeclarator (.ident "outer")
    (nl [.arrowFn true 1 outerArrowBody])])]

/-- namedFnExprProgram is the parsed form of

  const f = function g() \x7b\x7d;

a named function expression bound to the variable f. -/
def namedFnExprProgram : NodeList :=
  nl [.varDecl (nl [.varDeclarator (.ident "f")
    (nl [.funcExpr (some "g") false 1 (nl [])])])]

/-- blacklistedOnlyFile is a file whose only function is the blacklisted
handler onClick, so a run over it tracks nothing. -/
def blacklistedOnlyFile : SourceFile :=
  ⟨"a.js", .ok (nl [.funcDecl (some "onClick") false 1 (nl [])])⟩

/-- accessorProgram is the parsed form of

  class C \x7b get v() \x7b\x7d \x7d
  foo();

a class getter plus an unrelated call. The getter is one flat
classMethod node on line 2 with the identifier key v and an empty
body. -/
def accessorProgram : NodeList :=
  nl [.classDecl (some "C")
        (nl [.classMethod .getterK (.ident "v") false false 2 (nl [])]),
      .exprStmt (.callE 5 (.ident "foo") (nl []))]

/-- ctorClassProgram is the parsed form of

  class C \x7b constructor() \x7b\x7d \x7d

one class with one constructor: a flat classMethod node of constructor
kind on line 2 with the identifier key constructor and an empty body. -/
def ctorClassProgram : NodeList :=
  nl [.classDecl (some "C")
        (nl [.classMethod .ctorK (.ident "constructor") false false 2 (nl [])])]

/-- unreadableTree is a root directory holding a source file, an
unreadable subdirectory, and a further readable subdirectory with another
source file. -/
def unreadableTree : FSEntry :=
  .dir "root" (.readable (fsl
    [.file "a.js", .dir "secret" .unreadable,
     .dir "more" (.readable (fsl [.file "b.js"]))]))

/-- readableTree is unreadableTree without the unreadable subdirectory. -/
def readableTree : FSEntry :=
  .dir "root" (.readable (fsl
    [.file "a.js", .dir "more" (.readable (fsl [.file "b.js"]))]))

/-! ## Helper lemmas -/

/-- lookupA finds exactly the value just stored by setA. -/
theorem lookupA_setA_self {β : Type} (m : JMap β) (k : String) (v : β) :
    lookupA (setA m k v) k = some v := by
  induction m with
  | nil => simp [setA, containsA, lookupA]
  | cons p m ih =>
    cases hpk : (p.1 == k) with
    | true =>
      have hc : containsA (p :: m) k = true := by
        simp [containsA, lookupA, List.find?, hpk]
      simp only [setA, hc, if_true, List.map_cons, hpk]
      simp [lookupA, List.find?]
    | false =>
      have hc : containsA (p :: m) k = containsA m k := by
        simp [containsA, lookupA, List.find?, hpk]
      cases hm : containsA m k with
      | true =>
        have hstep : setA (p :: m) k v = p :: setA m k v := by
          have hne : p.1 ≠ k := by simpa using hpk
          simp [setA, hc, hm, List.map_cons, hpk, hne]
        rw [hstep, lookupA]
        simp only [List.find?, hpk]
        rw [← lookupA, ih]
      | false =>
        have hstep : setA (p :: m) k v = p :: setA m k v := by
          simp [setA, hc, hm]
        rw [hstep, lookupA]
        simp only [List.find?, hpk]
        rw [← lookupA, ih]

/-- walkFS distributes over list concatenation: an error in the first
part aborts, success continues into the second part with the accumulated
files. -/
theorem walkFS_append (bp : String) :
    ∀ (xs : FSList) (acc : List String) (ys : FSList),
      walkFS bp acc (fslAppend xs ys)
        = match walkFS bp acc xs with
          | .ok a => walkFS bp a ys
          | .error m => .error m
  | .nil, acc, ys => by simp [fslAppend, walkFS]
  | .cons e es, acc, ys => by
    simp only [fslAppend, walkFS]
    cases walkEntry bp acc e with
    | error m => rfl
    | ok a => exact walkFS_append bp es a ys

/-! ## Claim C8 -/

/-- C8: two runs of the analyzer over the same unchanged file list differ
only through the wall clock, and the function inventory, the
async-validation flag set and the usage-tier classification do not depend
on it, so they are identical across the two runs. -/
theorem c8_determinism (files : List SourceFile) (t1 t2 : String) :
    (fullRun files t1).inventory = (fullRun files t2).inventory ∧
    (fullRun files t1).flagSet = (fullRun files t2).flagSet ∧
    (fullRun files t1).unusedTier = (fullRun files t2).unusedTier ∧
    (fullRun files t1).singleUseTier = (fullRun files t2).singleUseTier ∧
    (fullRun files t1).wellUsedTier = (fullRun files t2).wellUsedTier :=
  ⟨rfl, rfl, rfl, rfl, rfl⟩

/-! ## Claim C5 -/

/-- C5: a file whose parse fails contributes nothing to the declaration
and call maps and to the skipped counter: the run over the file list with
the failing file equals the run that, after the preceding files, only
appends the one warning string and then continues with the remaining
files. -/
theorem c5_parse_error_isolated (pre post : List SourceFile) (rel msg : String) :
    runAnalyzer (pre ++ ⟨rel, .error msg⟩ :: post)
      = runFiles
          { runFiles initSt pre with
            errors := (runFiles initSt pre).errors
              ++ ["Error analyzing " ++ rel ++ ": Parse error: " ++ msg] }
          post := by
  unfold runAnalyzer runFiles
  rw [List.foldl_append, List.foldl_cons]
  rfl

/-! ## Claim C10 -/

/-- C10 counterexample: in a run over one class with one constructor, the
single function visit is classified anonymous and untracked, not under
the name constructor: the flat method node is visited with the class body
as parent, so the class-method naming branch of the classifier never
fires and the blacklist is never consulted. The constructor still never
reaches the inventory (it is counted in the skipped total), but not
through the mechanism the claim states. -/
theorem c10_counterexample :
    (eventsOfProgram ctorClassProgram).filterMap evInfo
      = [⟨"anonymous", false⟩] ∧
    (runAnalyzer [⟨"c.js", .ok ctorClassProgram⟩]).functions = [] ∧
    (runAnalyzer [⟨"c.js", .ok ctorClassProgram⟩]).skippedFunctionCount = 1 := by
  decide

/-- C10 amended: no class constructor (indeed no flat class method node)
ever appears in the inventory or in any async or usage finding, and it is
counted only in the skipped total; but the mechanism is not the
blacklist: the method node is visited with the class body as its parent,
the classifier returns the anonymous untracked result, and
analyzeFunction returns before the blacklist check, so the constructor
entry of the blacklist is never reached by a real class constructor. -/
theorem c10_constructor_never_tracked (file : String) (cls : Option String)
    (fn : FnView) (children : NodeList) (s : AnalyzerState)
    (hk : fn.kind = FnKind.classMethodK) (hid : fn.id = none) :
    getFunctionInfo fn .pClassBody = ⟨"anonymous", false⟩ ∧
    analyzeFunction file cls fn children .pClassBody s
      = { s with skippedFunctionCount := s.skippedFunctionCount + 1 } := by
  have hinfo : getFunctionInfo fn .pClassBody = ⟨"anonymous", false⟩ := by
    simp [getFunctionInfo, hid, hk]
  exact ⟨hinfo, by simp [analyzeFunction, hinfo]⟩

/-- Witness for C10 amended at the constructor visit of
ctorClassProgram. -/
theorem c10_constructor_never_tracked_witness :
    getFunctionInfo ⟨.classMethodK, none, false, 2⟩ .pClassBody
      = ⟨"anonymous", false⟩ ∧
    analyzeFunction "c.js" (some "C") ⟨.classMethodK, none, false, 2⟩
        (.cons (.ident "constructor") (nl [])) .pClassBody initSt
      = { initSt with skippedFunctionCount := initSt.skippedFunctionCount + 1 } :=
  c10_constructor_never_tracked "c.js" (some "C") ⟨.classMethodK, none, false, 2⟩
    (.cons (.ident "constructor") (nl [])) initSt rfl rfl

/-! ## Claim C3 -/

/-- C3 counterexample: the program const f = function g() with an empty
body has its function expression bound to the declarator f, yet the run
records the declaration under the internal name g (the node.id branch of
getFunctionInfo takes precedence over the declarator binding), so the
derived name is not the binding name f. -/
theorem c3_counterexample :
    (runAnalyzer [⟨"a.js", .ok namedFnExprProgram⟩]).functions.map (fun p => p.2.name)
      = ["g"] ∧
    lookupA (runAnalyzer [⟨"a.js", .ok namedFnExprProgram⟩]).functions "a.js:f:1" = none ∧
    getFunctionInfo ⟨.funcExprK, some "g", false, 1⟩ (.pVarDeclarator (.ident "f"))
      = ⟨"g", true⟩ := by
  decide

/-- C3 amended: a function expression or arrow-style function whose
immediate parent is a variable declarator with an identifier binding is
always tracked; the derived name is the binding name when the node
carries no internal name, and the internal name otherwise. -/
theorem c3_amended (fn : FnView) (b : String)
    (hk : fn.kind = FnKind.arrowK ∨ fn.kind = FnKind.funcExprK) :
    getFunctionInfo fn (.pVarDeclarator (.ident b))
      = match fn.id with
        | some g => ⟨g, true⟩
        | none => ⟨b, true⟩ := by
  cases hid : fn.id with
  | some g => simp [getFunctionInfo, hid]
  | none =>
    simp only [getFunctionInfo, hid]
    rw [if_pos hk]

/-- Witness for C3 amended at a concrete anonymous arrow function bound
to the variable f. -/
theorem c3_amended_witness :
    getFunctionInfo ⟨FnKind.arrowK, none, false, 1⟩ (.pVarDeclarator (.ident "f"))
      = ⟨"f", true⟩ :=
  c3_amended ⟨FnKind.arrowK, none, false, 1⟩ "f" (Or.inl rfl)

/-! ## Claim C2 -/

/-- C2: after a run whose only function is blacklisted there are zero
trackable declarations, and the summary then prints NaN (not 0) for the
async, sync, single-use and unused shares, because only the usage
efficiency computation guards the zero denominator; the code therefore
does not meet the claimed all-zero behavior. -/
theorem c2_zero_trackable_nan :
    trackableOf (runAnalyzer [blacklistedOnlyFile]) = 0 ∧
    (runAnalyzer [blacklistedOnlyFile]).skippedFunctionCount = 1 ∧
    usageEfficiencyOf (runAnalyzer [blacklistedOnlyFile]) = .num 0 ∧
    asyncShareOf (runAnalyzer [blacklistedOnlyFile]) = .nan ∧
    syncShareOf (runAnalyzer [blacklistedOnlyFile]) = .nan ∧
    singleUseShareOf (runAnalyzer [blacklistedOnlyFile]) = .nan ∧
    unusedShareOf (runAnalyzer [blacklistedOnlyFile]) = .nan := by
  decide

/-! ## Claim C6 -/

/-- C6 counterexample: on a root with one matching file, an unreadable
subdirectory and a further readable subdirectory, the manual walk aborts
with the file-system error and returns no files at all, while the same
tree without the unreadable entry yields both files; the walk does not
skip the unreadable directory and does not return the files of the
readable parts. -/
theorem c6_counterexample :
    findJSFilesManually unreadableTree = .error eaccesMsg ∧
    findJSFilesManually readableTree = .ok ["a.js", "more/b.js"] :=
  ⟨rfl, rfl⟩

/-- C6 amended: the manual fallback walk skips only the configured
excluded directory names; an unreadable subdirectory that is not excluded
makes the whole scan abort with the propagated file-system error, losing
also the files already collected from readable parts, with no warning
recorded. -/
theorem c6_amended (basePath : String) (acc acc1 : List String)
    (pre post : FSList) (dname : String)
    (hex : excludedDirs.contains dname = false)
    (hpre : walkFS basePath acc pre = .ok acc1) :
    walkFS basePath acc (fslAppend pre (.cons (.dir dname .unreadable) post))
      = .error eaccesMsg := by
  have hex2 : dname ∉ excludedDirs := by simpa using hex
  rw [walkFS_append, hpre]
  simp [walkFS, walkEntry, hex2]

/-- Witness for C6 amended: a readable file followed by an unreadable
directory aborts the walk even though a file had been collected. -/
theorem c6_amended_witness :
    walkFS "" [] (fslAppend (fsl [.file "a.js"])
        (.cons (.dir "secret" .unreadable) (fsl [])))
      = .error eaccesMsg :=
  c6_amended "" [] ["a.js"] (fsl [.file "a.js"]) (fsl []) "secret" rfl rfl

/-! ## Claim C4 -/

/-- ensureAgg preserves the aggregate invariant: a fresh entry starts with
zero totalCalls and no callers. -/
theorem aggInv_ensure (m : JMap CallAgg) (name : String) (h : aggInv m) :
    aggInv (ensureAgg m name) := by
  unfold ensureAgg
  split
  · exact h
  · intro p hp
    rcases List.mem_append.mp hp with hp | hp
    · exact h p hp
    · simp only [List.mem_singleton] at hp
      subst hp
      rfl

/-- Appending one Call Record while incrementing totalCalls preserves the
aggregate invariant. -/
theorem aggInv_push (m : JMap CallAgg) (name : String) (c : CallRec) (h : aggInv m) :
    aggInv (updateA m name
      (fun a => ⟨a.callers ++ [c], a.totalCalls + 1⟩)) := by
  intro p hp
  rcases List.mem_map.mp hp with ⟨q, hq, rfl⟩
  cases hqk : (q.1 == name) with
  | true =>
    simp only [updateA, hqk, if_pos]
    have hqi := h q hq
    simp [hqi]
  | false =>
    simp only [updateA, hqk]
    simpa using h q hq

/-- Every visitor event preserves the aggregate invariant. -/
theorem aggInv_step (file : String) (s : AnalyzerState) (ev : Ev)
    (h : aggInv s.functionCalls) : aggInv (stepEv file s ev).functionCalls := by
  cases ev with
  | fnEv fn body parent cls =>
    show aggInv (analyzeFunction file cls fn body parent s).functionCalls
    cases htr : (!(getFunctionInfo fn parent).shouldTrack) with
    | true => simpa [analyzeFunction, htr] using h
    | false =>
      cases hbl : isBlacklistedFunction (getFunctionInfo fn parent).name with
      | true => simpa [analyzeFunction, htr, hbl] using h
      | false =>
        simpa [analyzeFunction, htr, hbl] using
          aggInv_ensure s.functionCalls (getFunctionInfo fn parent).name h
  | callEv line callee awaited =>
    show aggInv (analyzeCall file awaited line callee s).functionCalls
    unfold analyzeCall
    cases getCallName callee with
    | none => exact h
    | some name => exact aggInv_push _ _ _ (aggInv_ensure _ _ h)

/-- Folding any event list preserves the aggregate invariant. -/
theorem aggInv_runEvents (file : String) (evs : List Ev) (s : AnalyzerState)
    (h : aggInv s.functionCalls) : aggInv (runEvents file evs s).functionCalls := by
  induction evs generalizing s with
  | nil => exact h
  | cons e es ih =>
    simp only [runEvents, List.foldl_cons]
    exact ih _ (aggInv_step file s e h)

/-- Analyzing one file (with or without a parse error) preserves the
aggregate invariant. -/
theorem aggInv_file (s : AnalyzerState) (f : SourceFile)
    (h : aggInv s.functionCalls) : aggInv (analyzeFileSt s f).functionCalls := by
  unfold analyzeFileSt
  cases f.parsed with
  | error m => exact h
  | ok prog => exact aggInv_runEvents _ _ _ h

/-- Folding any file list preserves the aggregate invariant. -/
theorem aggInv_runFiles (files : List SourceFile) (s : AnalyzerState)
    (h : aggInv s.functionCalls) : aggInv (runFiles s files).functionCalls := by
  induction files generalizing s with
  | nil => exact h
  | cons f fs ih =>
    simp only [runFiles, List.foldl_cons]
    exact ih _ (aggInv_file s f h)

/-- C4: at every reachable point of a run (after any list of analyzed
files and any prefix of visitor events of the file in progress) and in
particular after a full run, every Call Aggregate stores a totalCalls
count equal to the length of its callers sequence. -/
theorem c4_totalCalls_invariant (files : List SourceFile) (file : String)
    (evs : List Ev) :
    callsInvariant (runEvents file evs (runAnalyzer files)) := by
  have h0 : aggInv initSt.functionCalls := by
    intro p hp
    simp [initSt] at hp
  exact aggInv_runEvents file evs _ (aggInv_runFiles files initSt h0)

/-! ## Claim C7 -/

/-- Membership after insertByCalls is membership before plus the inserted
element. -/
theorem mem_insertByCalls (x a : FuncRec × CallAgg) :
    ∀ l, a ∈ insertByCalls x l ↔ a = x ∨ a ∈ l
  | [] => by simp [insertByCalls]
  | y :: ys => by
    unfold insertByCalls
    split
    · rw [List.mem_cons, mem_insertByCalls x a ys]
      simp only [List.mem_cons]
      tauto
    · simp [List.mem_cons]

/-- insertByCalls keeps a list that is descending by totalCalls
descending. -/
theorem sorted_insertByCalls (x : FuncRec × CallAgg) :
    ∀ l, List.Pairwise (fun a b => b.2.totalCalls ≤ a.2.totalCalls) l →
      List.Pairwise (fun a b => b.2.totalCalls ≤ a.2.totalCalls) (insertByCalls x l)
  | [], _ => by simp [insertByCalls]
  | y :: ys, h => by
    unfold insertByCalls
    rcases List.pairwise_cons.mp h with ⟨hy, hys⟩
    split
    · rename_i hlt
      refine List.pairwise_cons.mpr ⟨?_, sorted_insertByCalls x ys hys⟩
      intro b hb
      rcases (mem_insertByCalls x b ys).mp hb with rfl | hb
      · omega
      · exact hy b hb
    · rename_i hge
      refine List.pairwise_cons.mpr ⟨?_, h⟩
      intro b hb
      rcases List.mem_cons.mp hb with rfl | hb
      · omega
      · have := hy b hb
        omega

/-- sortByCallsDesc produces a list descending by totalCalls. -/
theorem sorted_sortByCallsDesc :
    ∀ l, List.Pairwise (fun a b => b.2.totalCalls ≤ a.2.totalCalls)
      (sortByCallsDesc l)
  | [] => by simp [sortByCallsDesc]
  | x :: xs => by
    unfold sortByCallsDesc
    exact sorted_insertByCalls x _ (sorted_sortByCallsDesc xs)

/-- Filtering one totalCalls value through insertByCalls: the inserted
element lands in front of the equal-key elements already present, because
only strictly greater keys are passed. -/
theorem filter_insertByCalls (x : FuncRec × CallAgg) (k : Nat) :
    ∀ l, (insertByCalls x l).filter (fun p => p.2.totalCalls == k)
      = if x.2.totalCalls == k then
          x :: l.filter (fun p => p.2.totalCalls == k)
        else l.filter (fun p => p.2.totalCalls == k)
  | [] => by
    cases hxk : (x.2.totalCalls == k) <;>
      simp [insertByCalls, List.filter_cons, hxk]
  | y :: ys => by
    unfold insertByCalls
    split
    · rename_i hlt
      have ih := filter_insertByCalls x k ys
      cases hxk : (x.2.totalCalls == k) with
      | true =>
        have hxe : x.2.totalCalls = k := by simpa using hxk
        have hyk : (y.2.totalCalls == k) = false := by
          simp only [beq_eq_false_iff_ne]
          omega
        simp [List.filter_cons, hyk, ih, hxk]
      | false =>
        cases hyk : (y.2.totalCalls == k) with
        | true => simp [List.filter_cons, hyk, ih, hxk]
        | false => simp [List.filter_cons, hyk, ih, hxk]
    · cases hxk : (x.2.totalCalls == k) with
      | true => simp [List.filter_cons, hxk]
      | false => simp [List.filter_cons, hxk]

/-- sortByCallsDesc is stable: for each totalCalls value the elements
carrying it appear in the sorted list exactly as they appear in the
input. -/
theorem filter_sortByCallsDesc (k : Nat) :
    ∀ l, (sortByCallsDesc l).filter (fun p => p.2.totalCalls == k)
      = l.filter (fun p => p.2.totalCalls == k)
  | [] => rfl
  | x :: xs => by
    unfold sortByCallsDesc
    rw [filter_insertByCalls]
    cases hxk : (x.2.totalCalls == k) with
    | true => simp [List.filter_cons, hxk, filter_sortByCallsDesc k xs]
    | false => simp [List.filter_cons, hxk, filter_sortByCallsDesc k xs]

/-- Every element of the multi-use bucket of the tier fold has at least
two calls. -/
theorem tiers_third_ge (s : AnalyzerState) :
    ∀ (l : List (String × FuncRec)) (acc : TierAcc),
      (∀ p ∈ acc.2.2, 2 ≤ p.2.totalCalls) →
      ∀ p ∈ (l.foldl (tierStep s) acc).2.2, 2 ≤ p.2.totalCalls
  | [], _, hacc => hacc
  | q :: l, acc, hacc => by
    simp only [List.foldl_cons]
    apply tiers_third_ge s l (tierStep s acc q)
    unfold tierStep
    cases hci : lookupA s.functionCalls q.2.name with
    | none => exact hacc
    | some ci =>
      by_cases h0 : ci.totalCalls = 0
      · simpa [h0] using hacc
      · by_cases h1 : ci.totalCalls = 1
        · simpa [h0, h1] using hacc
        · simp only [h0, h1, if_false]
          intro p hp
          rcases List.mem_append.mp hp with hp | hp
          · exact hacc p hp
          · simp only [List.mem_singleton] at hp
            subst hp
            show 2 ≤ ci.totalCalls
            omega

/-- C7: the well-used list of the usage report contains exactly the
declarations with at least two calls, is emitted in descending order of
totalCalls, and two entries with equal totalCalls keep their original
discovery order (the filtered subsequence at each call count is
unchanged). -/
theorem c7_wellUsed_sorted (s : AnalyzerState) :
    (∀ p ∈ (usageTiersOf s).2.2, 2 ≤ p.2.totalCalls) ∧
    List.Pairwise (fun a b => b.2.totalCalls ≤ a.2.totalCalls)
      (sortByCallsDesc (usageTiersOf s).2.2) ∧
    ∀ k : Nat,
      (sortByCallsDesc (usageTiersOf s).2.2).filter (fun p => p.2.totalCalls == k)
        = (usageTiersOf s).2.2.filter (fun p => p.2.totalCalls == k) := by
  refine ⟨?_, sorted_sortByCallsDesc _, fun k => filter_sortByCallsDesc k _⟩
  exact tiers_third_ge s s.functions ([], [], []) (by intro p hp; simp at hp)

/-! ## Claim C1 -/

/-- A list included in A is included in x ++ A. -/
theorem subset_tail1 {α : Type} {l A : List α} (x : List α) (h : l ⊆ A) :
    l ⊆ x ++ A :=
  h.trans (List.subset_append_right x A)

/-- A list included in A is included in x ++ (A ++ B). -/
theorem subset_tail2L {α : Type} {l A : List α} (x B : List α) (h : l ⊆ A) :
    l ⊆ x ++ (A ++ B) :=
  subset_tail1 x (h.trans (List.subset_append_left A B))

/-- A list included in B is included in x ++ (A ++ B). -/
theorem subset_tail2R {α : Type} {l B : List α} (x A : List α) (h : l ⊆ B) :
    l ⊆ x ++ (A ++ B) :=
  subset_tail1 x (h.trans (List.subset_append_right A B))

mutual
/-- The contributions collected from any node of a subtree are among the
contributions collected from the whole subtree: the nested traversal of
analyzeFunction does not stop at nested function boundaries, so the
collection is monotone along the subtree relation. -/
theorem collectPts_sub (sf : Node → List SuspPt) :
    ∀ (n m : Node), m ∈ subnodes n → collectPts sf m ⊆ collectPts sf n
  | .ident s, m, hm => by
    simp only [subnodes, List.mem_singleton] at hm
    subst hm
    exact fun z hz => hz
  | .strLit s, m, hm => by
    simp only [subnodes, List.mem_singleton] at hm
    subst hm
    exact fun z hz => hz
  | .awaitE l a, m, hm => by
    simp only [subnodes, List.mem_cons] at hm
    rcases hm with rfl | h
    · exact fun z hz => hz
    · simp only [collectPts]
      exact subset_tail1 _ (collectPts_sub sf a m h)
  | .callE l c args, m, hm => by
    simp only [subnodes, List.mem_cons, List.mem_append] at hm
    rcases hm with rfl | h | h
    · exact fun z hz => hz
    · simp only [collectPts]
      exact subset_tail2L _ _ (collectPts_sub sf c m h)
    · simp only [collectPts]
      exact subset_tail2R _ _ (collectPtsL_sub sf args m h)
  | .memberE o cp p, m, hm => by
    simp only [subnodes, List.mem_cons, List.mem_append] at hm
    rcases hm with rfl | h | h
    · exact fun z hz => hz
    · simp only [collectPts]
      exact subset_tail2L _ _ (collectPts_sub sf o m h)
    · simp only [collectPts]
      exact subset_tail2R _ _ (collectPts_sub sf p m h)
  | .funcDecl i a l b, m, hm => by
    simp only [subnodes, List.mem_cons] at hm
    rcases hm with rfl | h
    · exact fun z hz => hz
    · simp only [collectPts]
      exact subset_tail1 _ (collectPtsL_sub sf b m h)
  | .funcExpr i a l b, m, hm => by
    simp only [subnodes, List.mem_cons] at hm
    rcases hm with rfl | h
    · exact fun z hz => hz
    · simp only [collectPts]
      exact subset_tail1 _ (collectPtsL_sub sf b m h)
  | .arrowFn a l b, m, hm => by
    simp only [subnodes, List.mem_cons] at hm
    rcases hm with rfl | h
    · exact fun z hz => hz
    · simp only [collectPts]
      exact subset_tail1 _ (collectPtsL_sub sf b m h)
  | .classDecl i b, m, hm => by
    simp only [subnodes, List.mem_cons] at hm
    rcases hm with rfl | h
    · exact fun z hz => hz
    · simp only [collectPts]
      exact subset_tail1 _ (collectPtsL_sub sf b m h)
  | .classMethod k key cp a l b, m, hm => by
    simp only [subnodes, List.mem_cons, List.mem_append] at hm
    rcases hm with rfl | h | h
    · exact fun z hz => hz
    · simp only [collectPts]
      exact subset_tail2L _ _ (collectPts_sub sf key m h)
    · simp only [collectPts]
      exact subset_tail2R _ _ (collectPtsL_sub sf b m h)
  | .objectE ms, m, hm => by
    simp only [subnodes, List.mem_cons] at hm
    rcases hm with rfl | h
    · exact fun z hz => hz
    · simp only [collectPts]
      exact subset_tail1 _ (collectPtsL_sub sf ms m h)
  | .objProp key cp v, m, hm => by
    simp only [subnodes, List.mem_cons, List.mem_append] at hm
    rcases hm with rfl | h | h
    · exact fun z hz => hz
    · simp only [collectPts]
      exact subset_tail2L _ _ (collectPts_sub sf key m h)
    · simp only [collectPts]
      exact subset_tail2R _ _ (collectPts_sub sf v m h)
  | .objMethod k key cp a l b, m, hm => by
    simp only [subnodes, List.mem_cons, List.mem_append] at hm
    rcases hm with rfl | h | h
    · exact fun z hz => hz
    · simp only [collectPts]
      exact subset_tail2L _ _ (collectPts_sub sf key m h)
    · simp only [collectPts]
      exact subset_tail2R _ _ (collectPtsL_sub sf b m h)
  | .varDecl ds, m, hm => by
    simp only [subnodes, List.mem_cons] at hm
    rcases hm with rfl | h
    · exact fun z hz => hz
    · simp only [collectPts]
      exact subset_tail1 _ (collectPtsL_sub sf ds m h)
  | .varDeclarator i init, m, hm => by
    simp only [subnodes, List.mem_cons, List.mem_append] at hm
    rcases hm with rfl | h | h
    · exact fun z hz => hz
    · simp only [collectPts]
      exact subset_tail2L _ _ (collectPts_sub sf i m h)
    · simp only [collectPts]
      exact subset_tail2R _ _ (collectPtsL_sub sf init m h)
  | .assignE l r, m, hm => by
    simp only [subnodes, List.mem_cons, List.mem_append] at hm
    rcases hm with rfl | h | h
    · exact fun z hz => hz
    · simp only [collectPts]
      exact subset_tail2L _ _ (collectPts_sub sf l m h)
    · simp only [collectPts]
      exact subset_tail2R _ _ (collectPts_sub sf r m h)
  | .exprStmt e, m, hm => by
    simp only [subnodes, List.mem_cons] at hm
    rcases hm with rfl | h
    · exact fun z hz => hz
    · simp only [collectPts]
      exact subset_tail1 _ (collectPts_sub sf e m h)
  | .blockStmt b, m, hm => by
    simp only [subnodes, List.mem_cons] at hm
    rcases hm with rfl | h
    · exact fun z hz => hz
    · simp only [collectPts]
      exact subset_tail1 _ (collectPtsL_sub sf b m h)
  | .otherN cs, m, hm => by
    simp only [subnodes, List.mem_cons] at hm
    rcases hm with rfl | h
    · exact fun z hz => hz
    · simp only [collectPts]
      exact subset_tail1 _ (collectPtsL_sub sf cs m h)

/-- The contributions collected from any node found under a sibling list
are among the contributions collected from the whole list. -/
theorem collectPtsL_sub (sf : Node → List SuspPt) :
    ∀ (ns : NodeList) (m : Node), m ∈ subnodesL ns →
      collectPts sf m ⊆ collectPtsL sf ns
  | .nil, m, hm => by simp [subnodesL] at hm
  | .cons n ns, m, hm => by
    simp only [subnodesL, List.mem_append] at hm
    rcases hm with h | h
    · simp only [collectPtsL]
      exact (collectPts_sub sf n m h).trans (List.subset_append_left _ _)
    · simp only [collectPtsL]
      exact (collectPtsL_sub sf ns m h).trans (List.subset_append_right _ _)
end

/-- C1 counterexample: in nestedAwaitProgram the only await expression
(line 3) lies lexically inside the body of the nested declaration inner,
yet the run records it in the suspensionPoints of the outer declaration
as well: the point is attributed to outer although inner is the nearest
enclosing function-like node, so attribution is not exclusive to the
nearest enclosing declaration. -/
theorem c1_counterexample :
    (lookupA (runAnalyzer [⟨"a.js", .ok nestedAwaitProgram⟩]).functions
        "a.js:outer:1").map (fun fr => fr.awaitedOperations)
      = some [⟨3, "AwaitExpression"⟩] ∧
    (lookupA (runAnalyzer [⟨"a.js", .ok nestedAwaitProgram⟩]).functions
        "a.js:inner:2").map (fun fr => fr.awaitedOperations)
      = some [⟨3, "AwaitExpression"⟩] := by
  decide

/-- C1 amended: the suspension points recorded for a tracked declaration
are those of its entire body subtree with no stop at nested function-like
boundaries: every await expression and promise-combinator call of every
node under the body, including nodes inside nested function bodies, is
recorded against the declaration (as well as against the nested
declaration when that one is tracked in its own visit). -/
theorem c1_amended (file : String) (cls : Option String) (fn : FnView)
    (body : NodeList) (parent : ParentCtx) (s : AnalyzerState) (m : Node)
    (htrack : (getFunctionInfo fn parent).shouldTrack = true)
    (hbl : isBlacklistedFunction (getFunctionInfo fn parent).name = false)
    (hm : m ∈ subnodesL body) :
    ∃ fr, lookupA (analyzeFunction file cls fn body parent s).functions
            (functionId file (getFunctionInfo fn parent).name fn.line) = some fr ∧
      awaitsIn m ⊆ fr.awaitedOperations ∧
      promiseOpsIn m ⊆ fr.promiseOperations := by
  have hstate : analyzeFunction file cls fn body parent s
      = { s with
            functions := setA s.functions
              (functionId file (getFunctionInfo fn parent).name fn.line)
              ⟨(getFunctionInfo fn parent).name, fn.isAsync, file, cls, fn.line,
               awaitsInL body, promiseOpsInL body, [], []⟩,
            functionCalls := ensureAgg s.functionCalls (getFunctionInfo fn parent).name } := by
    simp [analyzeFunction, htrack, hbl]
  refine ⟨⟨(getFunctionInfo fn parent).name, fn.isAsync, file, cls, fn.line,
           awaitsInL body, promiseOpsInL body, [], []⟩, ?_, ?_, ?_⟩
  · rw [hstate]
    exact lookupA_setA_self _ _ _
  · exact collectPtsL_sub selfAwait body m hm
  · exact collectPtsL_sub selfPromise body m hm

/-- Witness for C1 amended: the outer arrow of nestedAwaitProgram is
tracked under the declarator name outer, the nested arrow is a node of
its body subtree, and the await point collected inside the nested arrow
is contained in the record stored for outer. -/
theorem c1_amended_witness :
    ∃ fr, lookupA (analyzeFunction "a.js" none ⟨.arrowK, none, true, 1⟩ outerArrowBody
            (.pVarDeclarator (.ident "outer")) initSt).functions
            (functionId "a.js"
              (getFunctionInfo ⟨.arrowK, none, true, 1⟩
                (.pVarDeclarator (.ident "outer"))).name 1) = some fr ∧
      awaitsIn innerArrowFn ⊆ fr.awaitedOperations ∧
      promiseOpsIn innerArrowFn ⊆ fr.promiseOperations :=
  c1_amended "a.js" none ⟨.arrowK, none, true, 1⟩ outerArrowBody
    (.pVarDeclarator (.ident "outer")) initSt innerArrowFn rfl (by decide) (by decide)

/-! ## Claim C9 -/

/-- C9 counterexample: in a run over a class getter plus an unrelated
call, the getter visit is classified anonymous and untracked, so the
state the claim describes never occurs: no tracked declaration named with
the get prefix exists, the inventory is empty, and no aggregate under a
get-prefixed name is ever created. The flat method node is visited with
the class body as parent, so the accessor-naming branch of the classifier
(the source of the get and set prefixes) never fires for a real getter or
setter. -/
theorem c9_counterexample :
    (eventsOfProgram accessorProgram).filterMap evInfo
      = [⟨"anonymous", false⟩] ∧
    (runAnalyzer [⟨"w.js", .ok accessorProgram⟩]).functions = [] ∧
    (runAnalyzer [⟨"w.js", .ok accessorProgram⟩]).skippedFunctionCount = 1 ∧
    lookupA (runAnalyzer [⟨"w.js", .ok accessorProgram⟩]).functionCalls "get v"
      = none := by
  decide

/-- C9 amended: no getter or setter method is ever tracked at all: a flat
class or object method node is visited with the class body or the object
expression as its parent, the classifier returns the anonymous untracked
result (never a get- or set-prefixed name), and analyzeFunction only
bumps the skipped counter, leaving the declaration map and the call
aggregates untouched, so no accessor ever appears in the inventory, in
any aggregate, or in any usage tier. -/
theorem c9_accessors_never_tracked (file : String) (cls : Option String)
    (fn : FnView) (children : NodeList) (parent : ParentCtx) (s : AnalyzerState)
    (hk : fn.kind = FnKind.classMethodK ∨ fn.kind = FnKind.objMethodK)
    (hid : fn.id = none)
    (hp : parent = ParentCtx.pClassBody ∨ parent = ParentCtx.pObjectExpr) :
    getFunctionInfo fn parent = ⟨"anonymous", false⟩ ∧
    analyzeFunction file cls fn children parent s
      = { s with skippedFunctionCount := s.skippedFunctionCount + 1 } := by
  have hinfo : getFunctionInfo fn parent = ⟨"anonymous", false⟩ := by
    rcases hp with rfl | rfl <;> rcases hk with hk | hk <;>
      simp [getFunctionInfo, hid, hk]
  exact ⟨hinfo, by simp [analyzeFunction, hinfo]⟩

/-- Witness for C9 amended at the getter visit of accessorProgram. -/
theorem c9_accessors_never_tracked_witness :
    getFunctionInfo ⟨.classMethodK, none, false, 2⟩ .pClassBody
      = ⟨"anonymous", false⟩ ∧
    analyzeFunction "w.js" (some "C") ⟨.classMethodK, none, false, 2⟩
        (.cons (.ident "v") (nl [])) .pClassBody initSt
      = { initSt with skippedFunctionCount := initSt.skippedFunctionCount + 1 } :=
  c9_accessors_never_tracked "w.js" (some "C") ⟨.classMethodK, none, false, 2⟩
    (.cons (.ident "v") (nl [])) .pClassBody initSt (Or.inl rfl) rfl (Or.inl rfl)
